import Mathlib

/-!
A shallow embedding of the storage-engine core of the `db-rust` repository:
the LRU replacer (`src/buffer/lru_replacer.rs`), the persistent bitmap
(`src/disk/bitmap.rs`), the disk manager with its page-id allocator
(`src/disk/disk_manager.rs`), the page bookkeeping trait
(`src/page/page.rs`) and the buffer pool manager
(`src/buffer/buffer_pool_manager.rs`).

Modelling conventions:
* Rust machine integers are modelled as `Nat` / `Int` (`PageId = i32` becomes
  `Int`; `usize` becomes `Nat`), with overflow made explicit where the source
  can overflow: the allocator's `i32` counter wraps through `i32Wrap`
  (two's-complement, the release-build semantics) and the replacer's `u32`
  tick clock advances modulo `2 ^ 32`.  Theorems about unbounded iteration
  carry the corresponding no-overflow bounds.
* `HashMap` is modelled as an association list (its iteration order is
  unspecified in Rust; the model fixes the list order), `HashSet` as a
  duplicate-free list from which `iter().nth(0)` takes the head, and
  `BTreeMap` as an association list sorted by key.
* File contents are byte lists.  `File::read` at position `p` yields
  `min(buffer, len - p)` bytes and `0` bytes at EOF; OS-level write failures
  are injected through an oracle `Env.writeErr` (a pure model cannot make a
  byte-list write fail, but the source's `write_page` can fail, and several
  spec sentences quantify over such failures).  The 64-bit page checksum of
  `compute_checksum` (Rust's `DefaultHasher`) is kept abstract as `Env.chk`.
* Rust methods taking `&mut self` and returning `io::Result<T>` become
  functions returning the updated state *and* an `Except Err T`, because the
  source keeps all mutations performed before an early `return Err`.
-/

namespace DbRust

/-! ### Constants (`src/common/config.rs`) -/

/-- `PAGE_SIZE` from `config.rs`: size of a data page in bytes. -/
def PAGE_SIZE : Nat := 4096

/-- `CHECKSUM_SIZE` from `config.rs`: size of the checksum overhead. -/
def CHECKSUM_SIZE : Nat := 8

/-- `HEADER_PAGE_ID` from `config.rs` line 5: the source text reads
`pub const HEADER_PAGE_ID: i32 = 0;`. -/
def HEADER_PAGE_ID : Int := 0

/-- `INVALID_PAGE_ID` from `config.rs`. -/
def INVALID_PAGE_ID : Int := -1

/-- Two's-complement wraparound of `i32` arithmetic (the release-build
behaviour of Rust's `+` / `-` on `i32`; a debug build aborts instead). -/
def i32Wrap (x : Int) : Int := (x + 2 ^ 31) % 2 ^ 32 - 2 ^ 31

/-! ### Errors (`std::io::ErrorKind` subset used via `src/common/error.rs`) -/

/-- The error kinds surfaced by the storage core. -/
inductive ErrKind where
  | alreadyExists
  | invalidData
  | invalidInput
  | notFound
  | writeZero
  | unexpectedEof
deriving DecidableEq, Repr

/-- `std::io::Error`: a kind plus a message, as built by `common/error.rs`. -/
structure Err where
  kind : ErrKind
  msg : String
deriving DecidableEq, Repr

instance {ε α : Type} [DecidableEq ε] [DecidableEq α] : DecidableEq (Except ε α)
  | .ok a, .ok b =>
      if h : a = b then .isTrue (by rw [h]) else .isFalse (by simp [h])
  | .ok _, .error _ => .isFalse (by simp)
  | .error _, .ok _ => .isFalse (by simp)
  | .error e, .error f =>
      if h : e = f then .isTrue (by rw [h]) else .isFalse (by simp [h])

def invalidData (m : String) : Err := ⟨.invalidData, m⟩
def invalidInput (m : String) : Err := ⟨.invalidInput, m⟩
def notFound (m : String) : Err := ⟨.notFound, m⟩
def eofErr : Err := ⟨.unexpectedEof, "I/O error: read 0 byte"⟩

/-! ### Association-list models of `HashMap` and `BTreeMap` -/

/-- `HashMap::get`. -/
def mapLookup : List (Nat × Nat) → Nat → Option Nat
  | [], _ => none
  | (k', v) :: t, k => if k' = k then some v else mapLookup t k

/-- `HashMap::insert` (replaces the value of an existing key). -/
def mapInsertR : List (Nat × Nat) → Nat → Nat → List (Nat × Nat)
  | [], k, v => [(k, v)]
  | (k', v') :: t, k, v =>
      if k' = k then (k, v) :: t else (k', v') :: mapInsertR t k v

/-- `HashMap::remove` (a key occurs at most once in any map the code builds). -/
def mapRemove : List (Nat × Nat) → Nat → List (Nat × Nat)
  | [], _ => []
  | (k', v') :: t, k => if k' = k then t else (k', v') :: mapRemove t k

/-- `BTreeMap::insert`: the list stays sorted ascending by key. -/
def btInsert : List (Nat × Nat) → Nat → Nat → List (Nat × Nat)
  | [], k, v => [(k, v)]
  | (k', v') :: t, k, v =>
      if k < k' then (k, v) :: (k', v') :: t
      else if k = k' then (k, v) :: t
      else (k', v') :: btInsert t k v

/-- `BTreeMap::remove` by key. -/
def btRemove : List (Nat × Nat) → Nat → List (Nat × Nat)
  | [], _ => []
  | (k', v') :: t, k => if k' = k then t else (k', v') :: btRemove t k

/-! ### LRU replacer (`src/buffer/lru_replacer.rs`)

`LRUReplacer<T>` instantiated at the frame-index type used by the buffer
pool (`usize`, modelled `Nat`): `forward: HashMap<T, u32>` maps a key to the
tick of its most recent insert, `backward: BTreeMap<u32, T>` orders tracked
keys by tick, `clock` is the `u32` tick counter, which wraps: it advances
modulo `2 ^ 32`. -/

structure LRUReplacer where
  forward : List (Nat × Nat)
  backward : List (Nat × Nat)
  clock : Nat
deriving DecidableEq, Repr

/-- `LRUReplacer::default()`. -/
def LRUReplacer.empty : LRUReplacer := ⟨[], [], 0⟩

/-- `LRUReplacer::insert`: drop the key's old tick from `backward` if
present, then record the fresh tick in both maps and advance the clock. -/
def LRUReplacer.insert (r : LRUReplacer) (val : Nat) : LRUReplacer :=
  let bw :=
    match mapLookup r.forward val with
    | none => r.backward
    | some c => btRemove r.backward c
  { forward := mapInsertR r.forward val r.clock
    backward := btInsert bw r.clock val
    clock := (r.clock + 1) % 2 ^ 32 }

/-- `LRUReplacer::erase`: remove from both maps, report presence. -/
def LRUReplacer.erase (r : LRUReplacer) (val : Nat) : Bool × LRUReplacer :=
  match mapLookup r.forward val with
  | none => (false, r)
  | some c =>
      (true, { r with forward := mapRemove r.forward val
                      backward := btRemove r.backward c })

/-- `LRUReplacer::victim`: pop the entry with the smallest tick
(`backward.iter().nth(0)`), removing it from both maps. -/
def LRUReplacer.victim (r : LRUReplacer) : Option Nat × LRUReplacer :=
  match r.backward.head? with
  | none => (none, r)
  | some (t, k) =>
      (some k, { r with forward := mapRemove r.forward k
                        backward := btRemove r.backward t })

/-- `LRUReplacer::size`. -/
def LRUReplacer.size (r : LRUReplacer) : Nat := r.forward.length

/-- The keys tracked by the replacer in LRU-to-MRU order (the `backward`
map read off in ascending tick order). -/
def absLRU (r : LRUReplacer) : List Nat := r.backward.map (·.2)

/-! ### Bitmap (`src/disk/bitmap.rs`)

`cache` holds the whole file image (8-byte checksum prefix followed by the
payload); `free` is the `BTreeSet<usize>` of payload byte indexes whose byte
is below `FULL_WORD`, modelled as a sorted duplicate-free list. -/

/-- `BITS_PER_WORD` from `bitmap.rs`. -/
def BITS_PER_WORD : Nat := 8

/-- `FULL_WORD` from `bitmap.rs`. -/
def FULL_WORD : Nat := 255

structure Bitmap where
  cache : List Nat
  free : List Nat
deriving DecidableEq, Repr

/-- `Bitmap::data`: the payload, skipping the checksum prefix. -/
def Bitmap.data (bm : Bitmap) : List Nat := bm.cache.drop CHECKSUM_SIZE

/-- `Bitmap::len`: number of payload bytes cached. -/
def Bitmap.len (bm : Bitmap) : Nat := bm.data.length

/-- `BTreeSet::insert` on the sorted model of `free`. -/
def setInsert : List Nat → Nat → List Nat
  | [], k => [k]
  | k' :: t, k =>
      if k < k' then k :: k' :: t
      else if k = k' then k' :: t
      else k' :: setInsert t k

/-- `Bitmap::grow`: `cache.resize(to + CHECKSUM_SIZE, 0)` when the payload
is shorter than `to` words; `Vec::resize` pads with zeros. -/
def Bitmap.grow (bm : Bitmap) (upto : Nat) : Bitmap :=
  if bm.len < upto then
    { bm with cache := bm.cache ++ List.replicate (upto + CHECKSUM_SIZE - bm.cache.length) 0 }
  else bm

/-- `Bitmap::set_bit`: grow to cover the word, OR in (or AND out) the mask
`1 <<< (BITS_PER_WORD - 1 - bit_idx)`, then refresh the free-word set. -/
def Bitmap.set_bit (bm : Bitmap) (idx : Nat) (bit : Bool) : Bitmap :=
  let word_idx := idx / BITS_PER_WORD
  let bit_idx := idx % BITS_PER_WORD
  let mask := 2 ^ (BITS_PER_WORD - 1 - bit_idx)
  let bm1 := bm.grow (word_idx + 1)
  let w := bm1.data.getD word_idx 0
  let w' := if bit then w ||| mask else w &&& (FULL_WORD ^^^ mask)
  let bm2 := { bm1 with cache := bm1.cache.set (CHECKSUM_SIZE + word_idx) w' }
  if w' < FULL_WORD then { bm2 with free := setInsert bm2.free word_idx }
  else { bm2 with free := bm2.free.erase word_idx }

/-- `Bitmap::get_bit`: `false` past the payload, else test the mask bit. -/
def Bitmap.get_bit (bm : Bitmap) (idx : Nat) : Bool :=
  let word_idx := idx / BITS_PER_WORD
  if bm.len ≤ word_idx then false
  else
    let bit_idx := idx % BITS_PER_WORD
    let mask := 2 ^ (BITS_PER_WORD - 1 - bit_idx)
    bm.data.getD word_idx 0 &&& mask > 0

/-! ### Disk manager (`src/disk/disk_manager.rs`) -/

/-- External behaviour the pure model cannot decide on its own: the 64-bit
page hash (`compute_checksum`, Rust's `DefaultHasher`) and the OS outcome of
`write_page` on a given page id (`none` = the write and `sync_data`
succeed). -/
structure Env where
  chk : List Nat → Nat
  writeErr : Int → Option Err

/-- `Metadata` from `disk_manager.rs`: the set of freed page ids
(`HashSet<PageId>`, modelled as a duplicate-free list whose head plays the
role of `iter().nth(0)`) plus the next never-issued id. -/
structure Metadata where
  free_pages : List Int
  next_free : Int
deriving DecidableEq, Repr

/-- The `while self.free_pages.remove(&(self.next_free - 1))` loop of
`Metadata::insert_free`, driven by fuel: each iteration removes one element
of `free`, so `free.length` rounds of fuel always suffice (when the fuel
hits 0 the set is empty and the loop guard is false anyway). -/
def collapseFuel : Nat → List Int → Int → List Int × Int
  | 0, free, next => (free, next)
  | fuel + 1, free, next =>
      if i32Wrap (next - 1) ∈ free then
        collapseFuel fuel (free.erase (i32Wrap (next - 1))) (i32Wrap (next - 1))
      else (free, next)

def collapseFree (free : List Int) (next : Int) : List Int × Int :=
  collapseFuel free.length free next

/-- `Metadata::insert_free`: add `id` to the free set, then collapse the
contiguous run just below `next_free`. -/
def Metadata.insert_free (m : Metadata) (id : Int) : Metadata :=
  let fp := if id ∈ m.free_pages then m.free_pages else m.free_pages ++ [id]
  let (fp', next') := collapseFree fp m.next_free
  ⟨fp', next'⟩

/-- `Metadata::find_free`: take any element of the free set (the model's
head stands for `iter().nth(0)`); if none, issue `next_free` and bump it. -/
def Metadata.find_free (m : Metadata) : Int × Metadata :=
  match m.free_pages.head? with
  | some id => (id, { m with free_pages := m.free_pages.erase id })
  | none => (m.next_free, { m with next_free := i32Wrap (m.next_free + 1) })

/-- `DiskManager`: the database file contents plus the allocator metadata. -/
structure DiskManager where
  file : List Nat
  metadata : Metadata
deriving DecidableEq, Repr

/-- `DiskManager::new` on a path whose file does not exist yet:
`init` finds an empty file, reads no records and sets `next_free = 1`. -/
def DiskManager.fresh : DiskManager := ⟨[], ⟨[], 1⟩⟩

/-- `DiskManager::allocate_page`. -/
def DiskManager.allocate_page (dm : DiskManager) : Int × DiskManager :=
  let (id, m') := dm.metadata.find_free
  (id, { dm with metadata := m' })

/-- `DiskManager::deallocate_page`. -/
def DiskManager.deallocate_page (dm : DiskManager) (id : Int) : DiskManager :=
  { dm with metadata := dm.metadata.insert_free id }

/-- `reinterpret::read_u64`: little-endian read of the first 8 bytes
(byte 0 is the least significant). -/
def readU64 (data : List Nat) : Nat :=
  (List.range 8).foldr (fun i acc => acc * 256 + data.getD i 0) 0

/-- `reinterpret::write_u64`: the 8 little-endian bytes of `n` (mod 2^64). -/
def u64Bytes (n : Nat) : List Nat :=
  (List.range 8).map (fun i => n / 256 ^ i % 256)

/-- `update_checksum`: overwrite the first 8 bytes of the page with the
hash of the remaining bytes. -/
def updateChecksum (env : Env) (data : List Nat) : List Nat :=
  u64Bytes (env.chk (data.drop 8)) ++ data.drop 8

/-- `validate_checksum`: `InvalidData` unless the stored and computed
hashes agree. -/
def validateChecksum (env : Env) (data : List Nat) : Option Err :=
  if readU64 data = env.chk (data.drop 8) % 2 ^ 64 then none
  else some (invalidData "Page corrupted")

/-- Overwrite `file` starting at `offset` with `bytes`, zero-padding the gap
if the offset lies past EOF (POSIX seek-past-end plus write). -/
def fileWrite (file : List Nat) (offset : Nat) (bytes : List Nat) : List Nat :=
  file.take offset ++ List.replicate (offset - file.length) 0 ++ bytes
    ++ file.drop (offset + bytes.length)

/-- `DiskManager::write_page`: update the checksum in the caller's buffer,
seek to `page_id * PAGE_SIZE` and write one page (`write_inl` + `sync_data`,
whose OS outcome comes from the oracle).  Returns the updated manager, the
mutated caller buffer, and the error if any. -/
def DiskManager.write_page (env : Env) (dm : DiskManager) (page_id : Int)
    (data : List Nat) : DiskManager × List Nat × Option Err :=
  let data' := updateChecksum env data
  let offset := page_id.toNat * PAGE_SIZE
  match env.writeErr page_id with
  | some e => (dm, data', some e)
  | none => ({ dm with file := fileWrite dm.file offset data' }, data', none)

/-- `DiskManager::read_inl`: loop `File::read` until `size` bytes arrive.
A read that returns 0 bytes yields `UnexpectedEof`; a full read is followed
by `validate_checksum`.  Returns the (possibly partially) filled buffer. -/
def readInl (env : Env) (file dst : List Nat) (offset size : Nat) :
    List Nat × Option Err :=
  let avail := file.length - offset
  if avail = 0 then (dst, some eofErr)
  else if avail < size then
    (((file.drop offset).take avail) ++ dst.drop avail, some eofErr)
  else
    let dst' := ((file.drop offset).take size) ++ dst.drop size
    (dst', validateChecksum env dst')

/-- `DiskManager::read_page`: seek to `page_id * PAGE_SIZE` and read one
page into `dst`.  Reading never modifies the file. -/
def DiskManager.read_page (env : Env) (dm : DiskManager) (page_id : Int)
    (dst : List Nat) : List Nat × Option Err :=
  readInl env dm.file dst (page_id.toNat * PAGE_SIZE) PAGE_SIZE

/-! ### Pages (`src/page/page.rs`) -/

/-- The bookkeeping state of the `Page` trait: id, byte content, pin count
(`i32`), dirty flag. -/
structure PageT where
  page_id : Int
  data : List Nat
  pin_count : Int
  is_dirty : Bool
deriving DecidableEq, Repr

/-- `T::new()` / `Default`: zeroed data, invalid id, unpinned, clean. -/
def PageT.new : PageT :=
  ⟨INVALID_PAGE_ID, List.replicate PAGE_SIZE 0, 0, false⟩

/-- `Page::pin`. -/
def PageT.pin (p : PageT) : PageT := { p with pin_count := p.pin_count + 1 }

/-- `Page::unpin`: `false` iff the pin count is already `≤ 0`. -/
def PageT.unpin (p : PageT) : Bool × PageT :=
  if p.pin_count ≤ 0 then (false, p)
  else (true, { p with pin_count := p.pin_count - 1 })

/-- `Page::set_page_id`. -/
def PageT.set_page_id (p : PageT) (id : Int) : PageT := { p with page_id := id }

/-- `Page::set_is_dirty` (plain assignment in the source). -/
def PageT.set_is_dirty (p : PageT) (d : Bool) : PageT := { p with is_dirty := d }

/-! ### Buffer pool manager (`src/buffer/buffer_pool_manager.rs`)

The source splits the state into `Data` (pages, page table, free list) and
`Actor` (replacer, disk manager) purely to satisfy the borrow checker; the
model flattens the two records. -/

structure BufferPool where
  pool_size : Nat
  pages : List PageT
  page_table : List (Int × Nat)
  free_list : List Nat
  replacer : LRUReplacer
  disk_mgr : DiskManager
deriving DecidableEq, Repr

/-- `HashMap<PageId, usize>::get` for the page table. -/
def ptLookup : List (Int × Nat) → Int → Option Nat
  | [], _ => none
  | (k', v) :: t, k => if k' = k then some v else ptLookup t k

/-- Page-table insert (replacing an existing binding of the same id). -/
def ptInsert : List (Int × Nat) → Int → Nat → List (Int × Nat)
  | [], k, v => [(k, v)]
  | (k', v') :: t, k, v =>
      if k' = k then (k, v) :: t else (k', v') :: ptInsert t k v

/-- Page-table remove. -/
def ptRemove : List (Int × Nat) → Int → List (Int × Nat)
  | [], _ => []
  | (k', v') :: t, k => if k' = k then t else (k', v') :: ptRemove t k

/-- `BufferPoolManager::new` + `init`: every frame starts empty and every
frame index is pushed onto the free list (so its top is `size - 1`). -/
def BufferPool.new (size : Nat) : BufferPool :=
  { pool_size := size
    pages := List.replicate size PageT.new
    page_table := []
    free_list := List.range size
    replacer := LRUReplacer.empty
    disk_mgr := DiskManager.fresh }

/-- The free-standing `validate` of `buffer_pool_manager.rs`:
`InvalidInput` for ids strictly below `HEADER_PAGE_ID`. -/
def validate (page_id : Int) : Option Err :=
  if page_id < HEADER_PAGE_ID then some (invalidInput "Page ID is invalid")
  else none

/-- `BufferPoolManager::flush_page_inl`: write the page to disk iff dirty
(clearing the flag on success), no-op otherwise.  `update_checksum` mutates
the page bytes even when the write then fails. -/
def flushPageInl (env : Env) (dm : DiskManager) (page : PageT) :
    DiskManager × PageT × Option Err :=
  if page.is_dirty then
    match dm.write_page env page.page_id page.data with
    | (dm', data', some e) => (dm', { page with data := data' }, some e)
    | (dm', data', none) => (dm', { page with data := data', is_dirty := false }, none)
  else (dm, page, none)

/-- `BufferPoolManager::load_page_inl`: refuse to load over a dirty page,
else read from disk into the page bytes (which keeps whatever the failed
partial read left there). -/
def loadPageInl (env : Env) (dm : DiskManager) (page : PageT) :
    PageT × Option Err :=
  if page.is_dirty then
    (page, some (invalidData "Cannot load while current page is dirty"))
  else
    let (dst', err) := dm.read_page env page.page_id page.data
    ({ page with data := dst' }, err)

/-- `BufferPoolManager::reset_page`: zero every byte. -/
def resetPage (page : PageT) : PageT :=
  { page with data := page.data.map (fun _ => 0) }

/-- The enum-tagged frame source of `prepare_page`. -/
inductive Either where
  | fromFreeList (idx : Nat)
  | fromReplacer (idx : Nat)

def Either.idx : Either → Nat
  | .fromFreeList i => i
  | .fromReplacer i => i

/-- `BufferPoolManager::prepare_page`: pick a frame (free-list top, else
replacer victim), flush it, and on success repurpose it for `maybe_id` (or a
freshly allocated id), optionally reset it, and pin it.  On flush failure a
replacer victim is re-inserted into the replacer; a free-list frame was
never popped.  Returns the frame index of the prepared page. -/
def preparePage (env : Env) (maybe_id : Option Int) (need_reset : Bool)
    (st : BufferPool) : BufferPool × Except Err Nat :=
  let pick : BufferPool × Except Err Either :=
    match st.free_list.getLast? with
    | some idx => (st, .ok (.fromFreeList idx))
    | none =>
        match st.replacer.victim with
        | (some idx, r') => ({ st with replacer := r' }, .ok (.fromReplacer idx))
        | (none, r') =>
            ({ st with replacer := r' },
             .error (notFound "Replacer cannot find a victim"))
  match pick with
  | (st0, .error e) => (st0, .error e)
  | (st0, .ok either) =>
    let idx := either.idx
    let page := st0.pages.getD idx PageT.new
    match flushPageInl env st0.disk_mgr page with
    | (dm', page', some e) =>
        let st1 := { st0 with pages := st0.pages.set idx page', disk_mgr := dm' }
        match either with
        | .fromFreeList _ => (st1, .error e)
        | .fromReplacer i =>
            ({ st1 with replacer := st1.replacer.insert i }, .error e)
    | (dm', page', none) =>
        let st1 := { st0 with pages := st0.pages.set idx page', disk_mgr := dm' }
        let st2 :=
          match either with
          | .fromFreeList _ => { st1 with free_list := st1.free_list.dropLast }
          | .fromReplacer _ =>
              { st1 with page_table := ptRemove st1.page_table page'.page_id }
        let (new_id, st3) :=
          match maybe_id with
          | some i => (i, st2)
          | none =>
              let (i, dm'') := st2.disk_mgr.allocate_page
              (i, { st2 with disk_mgr := dm'' })
        let page2 := page'.set_page_id new_id
        let page3 := if need_reset then resetPage page2 else page2
        let page4 := page3.pin
        ({ st3 with pages := st3.pages.set idx page4
                    page_table := ptInsert st3.page_table new_id idx },
         .ok idx)

/-- `BufferPoolManager::fetch_page`: validate, pin on a page-table hit,
otherwise prepare a frame and load the page from disk. -/
def fetchPage (env : Env) (page_id : Int) (st : BufferPool) :
    BufferPool × Except Err Nat :=
  match validate page_id with
  | some e => (st, .error e)
  | none =>
    match ptLookup st.page_table page_id with
    | some idx =>
        ({ st with pages := st.pages.set idx (st.pages.getD idx PageT.new).pin },
         .ok idx)
    | none =>
      match preparePage env (some page_id) false st with
      | (st1, .error e) => (st1, .error e)
      | (st1, .ok idx) =>
          let (page', lerr) :=
            loadPageInl env st1.disk_mgr (st1.pages.getD idx PageT.new)
          let st2 := { st1 with pages := st1.pages.set idx page' }
          match lerr with
          | some e => (st2, .error e)
          | none => (st2, .ok idx)

/-- `BufferPoolManager::new_page`. -/
def newPage (env : Env) (st : BufferPool) : BufferPool × Except Err Nat :=
  preparePage env none true st

/-- `BufferPoolManager::unpin_page`: on a hit the dirty flag is assigned
*before* the pin-count check, so the assignment survives the
`InvalidData` failure; when the pin count drops to zero the frame enters
the replacer. -/
def unpinPage (page_id : Int) (is_dirty : Bool) (st : BufferPool) :
    BufferPool × Except Err Unit :=
  match ptLookup st.page_table page_id with
  | none => (st, .error (notFound "Page not found in table"))
  | some idx =>
      let page := st.pages.getD idx PageT.new
      let page1 := page.set_is_dirty is_dirty
      match page1.unpin with
      | (false, page2) =>
          ({ st with pages := st.pages.set idx page2 },
           .error (invalidData "Pin count <= 0, cannot be unpinned"))
      | (true, page2) =>
          let st1 := { st with pages := st.pages.set idx page2 }
          if page2.pin_count = 0 then
            ({ st1 with replacer := st1.replacer.insert idx }, .ok ())
          else (st1, .ok ())

/-- `BufferPoolManager::flush_page`. -/
def flushPage (env : Env) (page_id : Int) (st : BufferPool) :
    BufferPool × Except Err Unit :=
  match validate page_id with
  | some e => (st, .error e)
  | none =>
    match ptLookup st.page_table page_id with
    | none => (st, .error (notFound "Page not found in table"))
    | some idx =>
        match flushPageInl env st.disk_mgr (st.pages.getD idx PageT.new) with
        | (dm', page', err) =>
            let st1 := { st with pages := st.pages.set idx page', disk_mgr := dm' }
            match err with
            | some e => (st1, .error e)
            | none => (st1, .ok ())

/-- `Result::and`: keep the first error. -/
def exAnd (a b : Except Err Unit) : Except Err Unit :=
  match a with
  | .error e => .error e
  | .ok _ => b

/-- An `io::Result<()>` from an optional error. -/
def optToRes : Option Err → Except Err Unit
  | some e => .error e
  | none => .ok ()

/-- The loop body of `flush_all_pages` over the page-table entries. -/
def flushAllGo (env : Env) : List (Int × Nat) → BufferPool →
    Except Err Unit → BufferPool × Except Err Unit
  | [], st, acc => (st, acc)
  | (_, idx) :: rest, st, acc =>
      let r := flushPageInl env st.disk_mgr (st.pages.getD idx PageT.new)
      let st1 := { st with pages := st.pages.set idx r.2.1, disk_mgr := r.1 }
      flushAllGo env rest st1 (exAnd acc (optToRes r.2.2))

/-- `BufferPoolManager::flush_all_pages`: flush every resident frame
(`HashMap` iteration modelled by the list order), accumulating
`result = result.and(res)` so the first error is kept. -/
def flushAllPages (env : Env) (st : BufferPool) : BufferPool × Except Err Unit :=
  flushAllGo env st.page_table st (.ok ())

/-- `BufferPoolManager::delete_page`: refuse when pinned; when resident and
unpinned, clear the dirty flag, push the frame on the free list and drop the
page-table entry (the frame is *not* erased from the replacer); in every
non-error case deallocate the id with the disk manager. -/
def deletePage (page_id : Int) (st : BufferPool) :
    BufferPool × Except Err Unit :=
  match validate page_id with
  | some e => (st, .error e)
  | none =>
    match ptLookup st.page_table page_id with
    | some idx =>
        let page := st.pages.getD idx PageT.new
        if page.pin_count > 0 then
          (st, .error (invalidData "Cannot delete pinned page"))
        else
          let st1 := { st with
            pages := st.pages.set idx (page.set_is_dirty false)
            free_list := st.free_list ++ [idx]
            page_table := ptRemove st.page_table page_id }
          ({ st1 with disk_mgr := st1.disk_mgr.deallocate_page page_id }, .ok ())
    | none =>
        ({ st with disk_mgr := st.disk_mgr.deallocate_page page_id }, .ok ())

/-- A concrete environment for closed evaluations: a hash that is constantly
zero and an OS that never fails a write. -/
def env0 : Env := ⟨fun _ => 0, fun _ => none⟩

/-- Run `n` consecutive `allocate_page` calls, collecting the issued ids. -/
def allocRun : Nat → DiskManager → List Int × DiskManager
  | 0, dm => ([], dm)
  | n + 1, dm =>
      let (id, dm') := dm.allocate_page
      let (ids, dm'') := allocRun n dm'
      (id :: ids, dm'')

/-- The error produced by one `flush_page_inl` on a frame: none when the
frame is clean, else whatever the OS answers for the frame's page id. -/
def frameFlushErr (env : Env) (p : PageT) : Option Err :=
  if p.is_dirty then env.writeErr p.page_id else none

/-- The first `some` of a list of per-frame flush outcomes, as an
`io::Result<()>`. -/
def foldResult : List (Option Err) → Except Err Unit
  | [] => .ok ()
  | none :: t => foldResult t
  | some e :: _ => .error e

/-- The operations a client can perform on the replacer. -/
inductive LRUOp where
  | ins (k : Nat)
  | vic
  | del (k : Nat)

/-- Run a list of operations on the replacer, discarding outputs. -/
def lruRunFrom : List LRUOp → LRUReplacer → LRUReplacer
  | [], r => r
  | .ins k :: t, r => lruRunFrom t (r.insert k)
  | .vic :: t, r => lruRunFrom t (r.victim).2
  | .del k :: t, r => lruRunFrom t (r.erase k).2

/-- The textbook LRU list model: keys ordered LRU-first; an insert moves
(or adds) the key to the MRU end. -/
def lruSpecInsert (l : List Nat) (k : Nat) : List Nat :=
  l.filter (fun x => x != k) ++ [k]

def lruSpecErase (l : List Nat) (k : Nat) : List Nat :=
  l.filter (fun x => x != k)

def lruSpecRunFrom : List LRUOp → List Nat → List Nat
  | [], l => l
  | .ins k :: t, l => lruSpecRunFrom t (lruSpecInsert l k)
  | .vic :: t, l => lruSpecRunFrom t l.tail
  | .del k :: t, l => lruSpecRunFrom t (lruSpecErase l k)

/-- The number of `insert` operations in a history (each one advances the
replacer's `u32` tick clock once). -/
def insCount : List LRUOp → Nat
  | [] => 0
  | .ins _ :: t => insCount t + 1
  | .vic :: t => insCount t
  | .del _ :: t => insCount t

/-- The coupling invariant of the two maps: `backward` is sorted strictly
by tick, all ticks are below the clock, `forward` is exactly the inverse
of `backward`, and `forward` has no duplicate keys. -/
def LRUInv (r : LRUReplacer) : Prop :=
  r.backward.Pairwise (fun p q => p.1 < q.1)
  ∧ (∀ p ∈ r.backward, p.1 < r.clock)
  ∧ (∀ k t, mapLookup r.forward k = some t ↔ (t, k) ∈ r.backward)
  ∧ (r.forward.map Prod.fst).Nodup

/-! ### Theorems -/

theorem getD_set_ne {α} (l : List α) (i j : Nat) (a d : α) (h : i ≠ j) :
    (l.set i a).getD j d = l.getD j d := by
  simp [List.getD_eq_getElem?_getD, List.getElem?_set_ne h]

theorem getD_set_self {α} (l : List α) (i : Nat) (a d : α) (h : i < l.length) :
    (l.set i a).getD i d = a := by
  simp [List.getD_eq_getElem?_getD, List.getElem?_set_eq_of_lt a h]

theorem exAnd_ok_right (a : Except Err Unit) : exAnd a (.ok ()) = a := by
  cases a <;> rfl

theorem exAnd_assoc (a b c : Except Err Unit) :
    exAnd (exAnd a b) c = exAnd a (exAnd b c) := by
  cases a <;> rfl

theorem foldResult_cons (o : Option Err) (l : List (Option Err)) :
    foldResult (o :: l) = exAnd (optToRes o) (foldResult l) := by
  cases o <;> rfl

theorem flushPageInl_err (env : Env) (dm : DiskManager) (p : PageT) :
    (flushPageInl env dm p).2.2 = frameFlushErr env p := by
  unfold flushPageInl frameFlushErr DiskManager.write_page
  cases hd : p.is_dirty <;> simp
  cases env.writeErr p.page_id <;> simp

theorem flushPageInl_dirty (env : Env) (dm : DiskManager) (p : PageT) :
    ((flushPageInl env dm p).2.1).is_dirty = (frameFlushErr env p).isSome := by
  unfold flushPageInl frameFlushErr DiskManager.write_page
  cases hd : p.is_dirty <;> simp [hd]
  cases env.writeErr p.page_id <;> simp [hd]

/-- `read_inl` at or past end-of-file: the very first `File::read` returns
0 bytes, so the loop fails with `UnexpectedEof` and the destination buffer
is untouched (no checksum is consulted). -/
theorem readInl_eof (env : Env) (file dst : List Nat) (offset size : Nat)
    (h : file.length ≤ offset) :
    readInl env file dst offset size = (dst, some eofErr) := by
  unfold readInl
  rw [Nat.sub_eq_zero_of_le h]
  simp

/-! Byte-level facts for the bitmap. -/

theorem getD_append_replicate_zero (xs : List Nat) (q n : Nat) :
    (xs ++ List.replicate q 0).getD n 0 = xs.getD n 0 := by
  rcases lt_or_ge n xs.length with h | h
  · exact List.getD_append _ _ _ _ h
  · rw [List.getD_eq_default _ _ h, List.getD_eq_getElem?_getD,
      List.getElem?_append_right h, List.getElem?_replicate]
    split <;> rfl

theorem drop_set (l : List Nat) (n w v : Nat) :
    (l.set (n + w) v).drop n = (l.drop n).set w v := by
  induction n generalizing l with
  | zero => simp
  | succ n ih =>
      cases l with
      | nil => rfl
      | cons a t =>
          have : (n + 1 + w) = (n + w) + 1 := by omega
          rw [this]
          simpa using ih t

/-- Growing never changes the value read from any payload byte: the new
bytes are zeros, and bytes past the payload already read as the default 0. -/
theorem grow_getD (bm : Bitmap) (u n : Nat) :
    (bm.grow u).data.getD n 0 = bm.data.getD n 0 := by
  unfold Bitmap.grow
  split
  · show ((bm.cache ++ _).drop CHECKSUM_SIZE).getD n 0 = _
    rw [List.drop_append_eq_append_drop, List.drop_replicate]
    exact getD_append_replicate_zero _ _ _
  · rfl

/-- `grow` pads the payload up to `upto` words (and never shrinks). -/
theorem grow_len (bm : Bitmap) (u : Nat) :
    (bm.grow u).len = max bm.len u := by
  have hlen : bm.len = bm.cache.length - CHECKSUM_SIZE := by
    simp [Bitmap.len, Bitmap.data]
  unfold Bitmap.grow
  split
  · show ((bm.cache ++ _).drop CHECKSUM_SIZE).length = _
    simp only [List.length_drop, List.length_append, List.length_replicate]
    unfold CHECKSUM_SIZE at *
    omega
  · unfold CHECKSUM_SIZE at *
    omega

/-- The cache effect of `set_bit`: the byte holding the bit is rewritten in
the grown cache (the free-word bookkeeping does not touch the cache). -/
theorem set_bit_cache (bm : Bitmap) (i : Nat) (b : Bool) :
    (bm.set_bit i b).cache
      = (bm.grow (i / BITS_PER_WORD + 1)).cache.set
          (CHECKSUM_SIZE + i / BITS_PER_WORD)
          (if b
            then (bm.grow (i / BITS_PER_WORD + 1)).data.getD (i / BITS_PER_WORD) 0
              ||| 2 ^ (BITS_PER_WORD - 1 - i % BITS_PER_WORD)
            else (bm.grow (i / BITS_PER_WORD + 1)).data.getD (i / BITS_PER_WORD) 0
              &&& (FULL_WORD ^^^ 2 ^ (BITS_PER_WORD - 1 - i % BITS_PER_WORD))) := by
  unfold Bitmap.set_bit
  dsimp only
  split <;> split <;> rfl

/-- The cache effect of `set_bit`, seen through `data`: the word containing
the bit is rewritten, on the grown payload (the free-word bookkeeping does
not touch the cache). -/
theorem set_bit_data (bm : Bitmap) (i : Nat) (b : Bool) :
    (bm.set_bit i b).data
      = ((bm.grow (i / BITS_PER_WORD + 1)).data).set (i / BITS_PER_WORD)
          (if b
            then (bm.grow (i / BITS_PER_WORD + 1)).data.getD (i / BITS_PER_WORD) 0
              ||| 2 ^ (BITS_PER_WORD - 1 - i % BITS_PER_WORD)
            else (bm.grow (i / BITS_PER_WORD + 1)).data.getD (i / BITS_PER_WORD) 0
              &&& (FULL_WORD ^^^ 2 ^ (BITS_PER_WORD - 1 - i % BITS_PER_WORD))) := by
  show (bm.set_bit i b).cache.drop CHECKSUM_SIZE = _
  rw [set_bit_cache bm i b, drop_set]
  rfl

/-- The byte seen at word `u` after `set_bit i b`. -/
theorem set_bit_getD (bm : Bitmap) (i : Nat) (b : Bool) (u : Nat) :
    (bm.set_bit i b).data.getD u 0
      = if u = i / BITS_PER_WORD
        then (if b
          then bm.data.getD (i / BITS_PER_WORD) 0
            ||| 2 ^ (BITS_PER_WORD - 1 - i % BITS_PER_WORD)
          else bm.data.getD (i / BITS_PER_WORD) 0
            &&& (FULL_WORD ^^^ 2 ^ (BITS_PER_WORD - 1 - i % BITS_PER_WORD)))
        else bm.data.getD u 0 := by
  rw [set_bit_data, grow_getD]
  by_cases h : u = i / BITS_PER_WORD
  · rw [if_pos h]
    subst h
    have hb : i / BITS_PER_WORD
        < (bm.grow (i / BITS_PER_WORD + 1)).data.length := by
      have := grow_len bm (i / BITS_PER_WORD + 1)
      simp only [Bitmap.len] at this
      omega
    exact getD_set_self _ _ _ _ hb
  · rw [if_neg h]
    rw [getD_set_ne _ _ _ _ _ (fun hh => h hh.symm), grow_getD]

/-- `get_bit` through `testBit`: past-the-payload words read as the default
byte 0, whose bits are all clear, so the length guard can be absorbed. -/
theorem get_bit_eq_testBit (bm : Bitmap) (j : Nat) :
    bm.get_bit j = (bm.data.getD (j / BITS_PER_WORD) 0).testBit
      (BITS_PER_WORD - 1 - j % BITS_PER_WORD) := by
  unfold Bitmap.get_bit
  dsimp only
  split
  case isTrue h =>
      rw [List.getD_eq_default _ _ (by simpa [Bitmap.len] using h)]
      simp
  case isFalse h =>
      rw [Nat.and_two_pow]
      cases ht : Nat.testBit (bm.data.getD (j / BITS_PER_WORD) 0)
        (BITS_PER_WORD - 1 - j % BITS_PER_WORD) <;>
        simp [ht, Nat.pos_pow_of_pos]

theorem testBit_or_self (x k : Nat) : (x ||| 2 ^ k).testBit k = true := by
  simp [Nat.testBit_lor, Nat.testBit_two_pow_self]

theorem testBit_and_mask_self (x k : Nat) (hk : k < 8) :
    (x &&& (FULL_WORD ^^^ 2 ^ k)).testBit k = false := by
  have h255 : (FULL_WORD ^^^ 2 ^ k).testBit k = false := by
    rw [show FULL_WORD = 2 ^ 8 - 1 from rfl, Nat.testBit_xor,
      Nat.testBit_two_pow_sub_one, Nat.testBit_two_pow_self]
    simp [hk]
  simp [Nat.testBit_land, h255]

theorem testBit_or_other (x k m : Nat) (h : k ≠ m) :
    (x ||| 2 ^ k).testBit m = x.testBit m := by
  simp [Nat.testBit_lor, Nat.testBit_two_pow_of_ne h]

theorem testBit_and_mask_other (x k m : Nat) (h : k ≠ m) (hm : m < 8) :
    (x &&& (FULL_WORD ^^^ 2 ^ k)).testBit m = x.testBit m := by
  have h255 : (FULL_WORD ^^^ 2 ^ k).testBit m = true := by
    rw [show FULL_WORD = 2 ^ 8 - 1 from rfl, Nat.testBit_xor,
      Nat.testBit_two_pow_sub_one, Nat.testBit_two_pow_of_ne h]
    simp [hm]
  simp [Nat.testBit_land, h255]

/-- C10.  For every bitmap state, bit index `i` and boolean `b`:
`set_bit i b` makes `get_bit i` return `b`, and every other index `j ≠ i`
reads exactly what it read before the call — growth pads new payload bytes
with zeros (which read as clear bits, just like indices beyond the payload
already did). -/
theorem claim10_set_bit_get_bit_frame_effect (bm : Bitmap) (i : Nat) (b : Bool) :
    (bm.set_bit i b).get_bit i = b ∧
    ∀ j, j ≠ i → (bm.set_bit i b).get_bit j = bm.get_bit j := by
  have hBW : BITS_PER_WORD = 8 := rfl
  have hk8 : BITS_PER_WORD - 1 - i % BITS_PER_WORD < 8 := by
    rw [hBW]
    omega
  constructor
  · rw [get_bit_eq_testBit, set_bit_getD, if_pos rfl]
    cases b
    · simp only [Bool.false_eq_true, if_false]
      exact testBit_and_mask_self _ _ hk8
    · simp only [if_true]
      exact testBit_or_self _ _
  · intro j hj
    rw [get_bit_eq_testBit, get_bit_eq_testBit, set_bit_getD]
    by_cases hw : j / BITS_PER_WORD = i / BITS_PER_WORD
    · rw [if_pos hw, hw]
      have hmk : BITS_PER_WORD - 1 - i % BITS_PER_WORD
          ≠ BITS_PER_WORD - 1 - j % BITS_PER_WORD := by
        rw [hBW] at hw ⊢
        omega
      have hm8 : BITS_PER_WORD - 1 - j % BITS_PER_WORD < 8 := by
        rw [hBW]
        omega
      cases b
      · simp only [Bool.false_eq_true, if_false]
        exact testBit_and_mask_other _ _ _ hmk hm8
      · simp only [if_true]
        exact testBit_or_other _ _ _ hmk
    · rw [if_neg hw]

/-- Witness for C10 on a fresh in-memory bitmap (the 8-byte checksum
prefix only): set bit 10, then read bits 10 and 3. -/
theorem claim10_witness :
    ((3 : Nat) ≠ 10) ∧
    ((⟨List.replicate 8 0, []⟩ : Bitmap).set_bit 10 true).get_bit 10 = true ∧
    ((⟨List.replicate 8 0, []⟩ : Bitmap).set_bit 10 true).get_bit 3
      = (⟨List.replicate 8 0, []⟩ : Bitmap).get_bit 3 :=
  ⟨by decide,
    (claim10_set_bit_get_bit_frame_effect ⟨List.replicate 8 0, []⟩ 10 true).1,
    (claim10_set_bit_get_bit_frame_effect ⟨List.replicate 8 0, []⟩ 10 true).2 3
      (by decide)⟩

theorem flushAllGo_cons (env : Env) (id : Int) (idx : Nat)
    (rest : List (Int × Nat)) (st : BufferPool) (acc : Except Err Unit) :
    flushAllGo env ((id, idx) :: rest) st acc
      = flushAllGo env rest
          { st with
            pages := st.pages.set idx
              (flushPageInl env st.disk_mgr (st.pages.getD idx PageT.new)).2.1
            disk_mgr := (flushPageInl env st.disk_mgr (st.pages.getD idx PageT.new)).1 }
          (exAnd acc
            (optToRes (flushPageInl env st.disk_mgr (st.pages.getD idx PageT.new)).2.2)) :=
  rfl

/-- The inductive core behind C7: running the `flush_all_pages` loop over
any suffix of page-table entries (with distinct in-range frame indexes)
returns `acc.and` the first per-frame flush error, sets each visited
frame's dirty flag to "my flush failed", and leaves every other frame
untouched. -/
theorem flushAllGo_spec (env : Env) (entries : List (Int × Nat)) :
    ∀ (st : BufferPool) (acc : Except Err Unit),
    (entries.map Prod.snd).Nodup →
    (∀ e ∈ entries, e.2 < st.pages.length) →
    (flushAllGo env entries st acc).2
      = exAnd acc (foldResult (entries.map
          (fun e => frameFlushErr env (st.pages.getD e.2 PageT.new))))
    ∧ (∀ e ∈ entries,
        ((flushAllGo env entries st acc).1.pages.getD e.2 PageT.new).is_dirty
          = (frameFlushErr env (st.pages.getD e.2 PageT.new)).isSome)
    ∧ (∀ j, j ∉ entries.map Prod.snd →
        (flushAllGo env entries st acc).1.pages.getD j PageT.new
          = st.pages.getD j PageT.new)
    ∧ (flushAllGo env entries st acc).1.pages.length = st.pages.length := by
  induction entries with
  | nil =>
      intro st acc _ _
      refine ⟨?_, ?_, ?_, rfl⟩
      · simp [flushAllGo, foldResult, exAnd_ok_right]
      · intro e he
        simp at he
      · intro j _
        rfl
  | cons head rest ih =>
      obtain ⟨id, idx⟩ := head
      intro st acc hnd hb
      rw [List.map_cons] at hnd
      have hnd' := List.nodup_cons.mp hnd
      have hndr : (rest.map Prod.snd).Nodup := hnd'.2
      have hidx : idx ∉ rest.map Prod.snd := hnd'.1
      have hbidx : idx < st.pages.length := hb (id, idx) (List.mem_cons_self _ _)
      rw [flushAllGo_cons]
      set r := flushPageInl env st.disk_mgr (st.pages.getD idx PageT.new) with hr
      set st1 : BufferPool :=
        { st with pages := st.pages.set idx r.2.1, disk_mgr := r.1 } with hst1
      have hlen1 : st1.pages.length = st.pages.length := by
        rw [hst1]
        simp
      have hget_ne : ∀ j, j ≠ idx →
          st1.pages.getD j PageT.new = st.pages.getD j PageT.new := by
        intro j hj
        rw [hst1]
        exact getD_set_ne _ _ _ _ _ (Ne.symm hj)
      have hget_idx : st1.pages.getD idx PageT.new = r.2.1 := by
        rw [hst1]
        exact getD_set_self _ _ _ _ hbidx
      have hbr : ∀ e ∈ rest, e.2 < st1.pages.length := by
        intro e he
        rw [hlen1]
        exact hb e (List.mem_cons_of_mem _ he)
      obtain ⟨ih1, ih2, ih3, ih4⟩ := ih st1 (exAnd acc (optToRes r.2.2)) hndr hbr
      have hmap : rest.map (fun e => frameFlushErr env (st1.pages.getD e.2 PageT.new))
          = rest.map (fun e => frameFlushErr env (st.pages.getD e.2 PageT.new)) := by
        apply List.map_congr_left
        intro e he
        have he2 : e.2 ≠ idx := by
          intro h
          exact hidx (h ▸ List.mem_map_of_mem Prod.snd he)
        rw [hget_ne e.2 he2]
      have herr : r.2.2 = frameFlushErr env (st.pages.getD idx PageT.new) := by
        rw [hr]
        exact flushPageInl_err env st.disk_mgr _
      refine ⟨?_, ?_, ?_, ?_⟩
      · rw [ih1, hmap, List.map_cons, foldResult_cons, exAnd_assoc, herr]
      · intro e he
        rcases List.mem_cons.mp he with heq | hmem
        · subst heq
          rw [ih3 idx hidx, hget_idx, hr]
          exact flushPageInl_dirty env st.disk_mgr _
        · have he2 : e.2 ≠ idx := by
            intro h
            exact hidx (h ▸ List.mem_map_of_mem Prod.snd hmem)
          have := ih2 e hmem
          rwa [hget_ne e.2 he2] at this
      · intro j hj
        have hj1 : j ∉ rest.map Prod.snd := by
          intro h
          exact hj (by simp [h])
        have hjidx : j ≠ idx := by
          intro h
          exact hj (by simp [h])
        rw [ih3 j hj1, hget_ne j hjidx]
      · rw [ih4, hlen1]

/-- C7.  `flush_all_pages` visits every resident frame even after an
earlier flush fails, returns the first error encountered (success when
none), clears the dirty flag of every frame whose flush succeeded, and
leaves a frame whose flush failed dirty.  `frameFlushErr` is the per-frame
outcome (clean frames flush as a no-op); the page-table order stands for
the `HashMap` iteration order, and the hypotheses say the table's frame
indexes are distinct and in range. -/
theorem claim7_flush_all_continues_and_returns_first_error
    (env : Env) (st : BufferPool)
    (hnd : (st.page_table.map Prod.snd).Nodup)
    (hb : ∀ e ∈ st.page_table, e.2 < st.pages.length) :
    (flushAllPages env st).2
      = foldResult (st.page_table.map
          (fun e => frameFlushErr env (st.pages.getD e.2 PageT.new)))
    ∧ ∀ e ∈ st.page_table,
        ((flushAllPages env st).1.pages.getD e.2 PageT.new).is_dirty
          = (frameFlushErr env (st.pages.getD e.2 PageT.new)).isSome := by
  obtain ⟨h1, h2, _, _⟩ := flushAllGo_spec env st.page_table st (.ok ()) hnd hb
  exact ⟨by rw [flushAllPages, h1]; rfl, h2⟩

/-- Witness for C7: three dirty resident frames holding pages 1, 2, 3; the
OS fails the write of page 2 only.  `flush_all_pages` returns that error,
pages 1 and 3 are flushed clean, page 2 stays dirty. -/
theorem claim7_witness :
    ((([(1, 0), (2, 1), (3, 2)] : List (Int × Nat)).map Prod.snd).Nodup) ∧
    (∀ e ∈ ([(1, 0), (2, 1), (3, 2)] : List (Int × Nat)), e.2 <
      ([⟨1, [], 1, true⟩, ⟨2, [], 1, true⟩, ⟨3, [], 1, true⟩] : List PageT).length) ∧
    ((flushAllPages
        ⟨fun _ => 0, fun i => if i = 2 then some (invalidData "disk full") else none⟩
        ⟨3, [⟨1, [], 1, true⟩, ⟨2, [], 1, true⟩, ⟨3, [], 1, true⟩],
          [(1, 0), (2, 1), (3, 2)], [], LRUReplacer.empty, DiskManager.fresh⟩).2
      = foldResult (([(1, 0), (2, 1), (3, 2)] : List (Int × Nat)).map
          (fun e => frameFlushErr
            ⟨fun _ => 0, fun i => if i = 2 then some (invalidData "disk full") else none⟩
            (([⟨1, [], 1, true⟩, ⟨2, [], 1, true⟩, ⟨3, [], 1, true⟩] : List PageT).getD
              e.2 PageT.new)))
    ∧ ∀ e ∈ ([(1, 0), (2, 1), (3, 2)] : List (Int × Nat)),
        (((flushAllPages
            ⟨fun _ => 0, fun i => if i = 2 then some (invalidData "disk full") else none⟩
            ⟨3, [⟨1, [], 1, true⟩, ⟨2, [], 1, true⟩, ⟨3, [], 1, true⟩],
              [(1, 0), (2, 1), (3, 2)], [], LRUReplacer.empty, DiskManager.fresh⟩).1.pages.getD
          e.2 PageT.new).is_dirty
          = (frameFlushErr
              ⟨fun _ => 0, fun i => if i = 2 then some (invalidData "disk full") else none⟩
              (([⟨1, [], 1, true⟩, ⟨2, [], 1, true⟩, ⟨3, [], 1, true⟩] : List PageT).getD
                e.2 PageT.new)).isSome)) :=
  ⟨by decide, by decide,
    claim7_flush_all_continues_and_returns_first_error
      ⟨fun _ => 0, fun i => if i = 2 then some (invalidData "disk full") else none⟩
      ⟨3, [⟨1, [], 1, true⟩, ⟨2, [], 1, true⟩, ⟨3, [], 1, true⟩],
        [(1, 0), (2, 1), (3, 2)], [], LRUReplacer.empty, DiskManager.fresh⟩
      (by decide) (by decide)⟩

theorem btInsert_append (l : List (Nat × Nat)) (c v : Nat)
    (h : ∀ p ∈ l, p.1 < c) : btInsert l c v = l ++ [(c, v)] := by
  induction l with
  | nil => rfl
  | cons hd tl ih =>
      obtain ⟨k', v'⟩ := hd
      have hk : k' < c := h (k', v') (List.mem_cons_self _ _)
      rw [btInsert]
      rw [if_neg (by omega), if_neg (by omega)]
      rw [ih (fun p hp => h p (List.mem_cons_of_mem _ hp))]
      rfl

theorem btRemove_sublist (l : List (Nat × Nat)) (c : Nat) :
    List.Sublist (btRemove l c) l := by
  induction l with
  | nil => exact List.Sublist.refl _
  | cons hd tl ih =>
      obtain ⟨k', v'⟩ := hd
      rw [btRemove]
      split
      · exact List.sublist_cons_self _ _
      · exact List.Sublist.cons₂ _ ih

theorem btRemove_mem (l : List (Nat × Nat)) (c : Nat)
    (hnd : (l.map Prod.fst).Nodup) (p : Nat × Nat) :
    p ∈ btRemove l c ↔ p ∈ l ∧ p.1 ≠ c := by
  induction l with
  | nil => simp [btRemove]
  | cons hd tl ih =>
      obtain ⟨k', v'⟩ := hd
      rw [List.map_cons, List.nodup_cons] at hnd
      rw [btRemove]
      split
      case isTrue h =>
          subst h
          constructor
          · intro hp
            refine ⟨List.mem_cons_of_mem _ hp, ?_⟩
            intro h1
            have hm := List.mem_map_of_mem Prod.fst hp
            rw [h1] at hm
            exact hnd.1 hm
          · rintro ⟨hp, hne⟩
            rcases List.mem_cons.mp hp with rfl | hp
            · exact absurd rfl hne
            · exact hp
      case isFalse h =>
          rw [List.mem_cons, ih hnd.2, List.mem_cons]
          constructor
          · rintro (rfl | ⟨hp, hne⟩)
            · exact ⟨Or.inl rfl, h⟩
            · exact ⟨Or.inr hp, hne⟩
          · rintro ⟨rfl | hp, hne⟩
            · exact Or.inl rfl
            · exact Or.inr ⟨hp, hne⟩

theorem btRemove_map_snd (l : List (Nat × Nat)) (c val : Nat)
    (hnd : (l.map Prod.fst).Nodup)
    (hcoh : ∀ p ∈ l, (p.2 = val ↔ p.1 = c)) :
    (btRemove l c).map Prod.snd
      = (l.map Prod.snd).filter (fun x => x != val) := by
  induction l with
  | nil => rfl
  | cons hd tl ih =>
      obtain ⟨k', v'⟩ := hd
      rw [List.map_cons, List.nodup_cons] at hnd
      rw [btRemove, List.map_cons, List.filter_cons]
      split
      case isTrue h =>
          subst h
          have hv : v' = val := (hcoh (k', v') (List.mem_cons_self _ _)).mpr rfl
          subst hv
          rw [if_neg (by simp)]
          rw [List.filter_eq_self.mpr]
          intro a ha
          obtain ⟨p, hp, rfl⟩ := List.mem_map.mp ha
          have hp1 : p.1 ≠ k' := by
            intro h1
            have hm := List.mem_map_of_mem Prod.fst hp
            rw [h1] at hm
            exact hnd.1 hm
          simp only [bne_iff_ne, ne_eq]
          intro hval
          exact hp1 ((hcoh p (List.mem_cons_of_mem _ hp)).mp hval)
      case isFalse h =>
          have hv : v' ≠ val := by
            intro hval
            exact h ((hcoh (k', v') (List.mem_cons_self _ _)).mp hval)
          rw [if_pos (by simpa using hv), List.map_cons,
            ih hnd.2 (fun p hp => hcoh p (List.mem_cons_of_mem _ hp))]

theorem same_tick_same_val (l : List (Nat × Nat)) (c a b : Nat)
    (hnd : (l.map Prod.fst).Nodup) (ha : (c, a) ∈ l) (hb : (c, b) ∈ l) :
    a = b := by
  induction l with
  | nil => simp at ha
  | cons hd tl ih =>
      obtain ⟨k', v'⟩ := hd
      rw [List.map_cons, List.nodup_cons] at hnd
      rcases List.mem_cons.mp ha with ha' | ha' <;>
        rcases List.mem_cons.mp hb with hb' | hb'
      · rw [Prod.mk.injEq] at ha' hb'
        rw [ha'.2, hb'.2]
      · rw [Prod.mk.injEq] at ha'
        have hm := List.mem_map_of_mem Prod.fst hb'
        rw [show ((c, b) : Nat × Nat).1 = k' from ha'.1] at hm
        exact absurd hm hnd.1
      · rw [Prod.mk.injEq] at hb'
        have hm := List.mem_map_of_mem Prod.fst ha'
        rw [show ((c, a) : Nat × Nat).1 = k' from hb'.1] at hm
        exact absurd hm hnd.1
      · exact ih hnd.2 ha' hb'

theorem mapLookup_insertR (m : List (Nat × Nat)) (k v k' : Nat) :
    mapLookup (mapInsertR m k v) k'
      = if k' = k then some v else mapLookup m k' := by
  induction m with
  | nil =>
      rw [mapInsertR]
      by_cases h : k' = k
      · subst h
        rw [if_pos rfl]
        simp [mapLookup]
      · rw [if_neg h]
        simp only [mapLookup]
        rw [if_neg (fun hh => h hh.symm)]
  | cons hd tl ih =>
      obtain ⟨k0, v0⟩ := hd
      rw [mapInsertR]
      by_cases h : k0 = k
      · subst h
        rw [if_pos rfl]
        by_cases h2 : k' = k0
        · subst h2
          rw [mapLookup, if_pos rfl, if_pos rfl]
        · rw [mapLookup, if_neg (fun hh => h2 hh.symm), if_neg h2, mapLookup,
            if_neg (fun hh => h2 hh.symm)]
      · rw [if_neg h]
        by_cases h2 : k0 = k'
        · subst h2
          rw [mapLookup, if_pos rfl, if_neg (fun hh => h hh), mapLookup,
            if_pos rfl]
        · rw [mapLookup, if_neg h2, ih]
          by_cases h3 : k' = k
          · rw [if_pos h3, if_pos h3]
          · rw [if_neg h3, if_neg h3, mapLookup, if_neg h2]

theorem mapRemove_sublist (m : List (Nat × Nat)) (k : Nat) :
    List.Sublist (mapRemove m k) m := by
  induction m with
  | nil => exact List.Sublist.refl _
  | cons hd tl ih =>
      obtain ⟨k0, v0⟩ := hd
      rw [mapRemove]
      split
      · exact List.sublist_cons_self _ _
      · exact List.Sublist.cons₂ _ ih

theorem mapLookup_isSome_mem_keys (m : List (Nat × Nat)) (k t : Nat)
    (h : mapLookup m k = some t) : k ∈ m.map Prod.fst := by
  induction m with
  | nil => simp [mapLookup] at h
  | cons hd tl ih =>
      obtain ⟨k0, v0⟩ := hd
      rw [mapLookup] at h
      rw [List.map_cons]
      by_cases hk : k0 = k
      · exact hk ▸ List.mem_cons_self _ _
      · rw [if_neg hk] at h
        exact List.mem_cons_of_mem _ (ih h)

theorem mapRemove_lookup (m : List (Nat × Nat)) (k k' : Nat)
    (hnd : (m.map Prod.fst).Nodup) :
    mapLookup (mapRemove m k) k'
      = if k' = k then none else mapLookup m k' := by
  induction m with
  | nil =>
      rw [mapRemove, mapLookup]
      split <;> rfl
  | cons hd tl ih =>
      obtain ⟨k0, v0⟩ := hd
      rw [List.map_cons, List.nodup_cons] at hnd
      rw [mapRemove]
      by_cases h : k0 = k
      · subst h
        rw [if_pos rfl]
        by_cases h2 : k' = k0
        · subst h2
          rw [if_pos rfl]
          cases hl : mapLookup tl k' with
          | none => rfl
          | some t => exact absurd (mapLookup_isSome_mem_keys tl k' t hl) hnd.1
        · rw [if_neg h2, mapLookup, if_neg (fun hh => h2 hh.symm)]
      · rw [if_neg h]
        by_cases h2 : k0 = k'
        · subst h2
          rw [mapLookup, if_pos rfl, if_neg (fun hh => h hh), mapLookup,
            if_pos rfl]
        · rw [mapLookup, if_neg h2, ih hnd.2]
          by_cases h3 : k' = k
          · rw [if_pos h3, if_pos h3]
          · rw [if_neg h3, if_neg h3, mapLookup, if_neg h2]

theorem mapInsertR_keys_mem (m : List (Nat × Nat)) (k v x : Nat) :
    x ∈ (mapInsertR m k v).map Prod.fst ↔ x ∈ m.map Prod.fst ∨ x = k := by
  induction m with
  | nil => simp [mapInsertR]
  | cons hd tl ih =>
      obtain ⟨k0, v0⟩ := hd
      rw [mapInsertR]
      by_cases h : k0 = k
      · subst h
        rw [if_pos rfl]
        simp only [List.map_cons, List.mem_cons]
        tauto
      · rw [if_neg h]
        simp only [List.map_cons, List.mem_cons, ih]
        tauto

theorem mapInsertR_keys_nodup (m : List (Nat × Nat)) (k v : Nat)
    (hnd : (m.map Prod.fst).Nodup) :
    ((mapInsertR m k v).map Prod.fst).Nodup := by
  induction m with
  | nil => simp [mapInsertR]
  | cons hd tl ih =>
      obtain ⟨k0, v0⟩ := hd
      rw [List.map_cons, List.nodup_cons] at hnd
      rw [mapInsertR]
      by_cases h : k0 = k
      · subst h
        rw [if_pos rfl, List.map_cons, List.nodup_cons]
        exact ⟨hnd.1, hnd.2⟩
      · rw [if_neg h, List.map_cons, List.nodup_cons]
        refine ⟨?_, ih hnd.2⟩
        rw [mapInsertR_keys_mem]
        rintro (hx | rfl)
        · exact hnd.1 hx
        · exact h rfl

theorem ticks_nodup (r : LRUReplacer)
    (hpw : r.backward.Pairwise (fun p q => p.1 < q.1)) :
    (r.backward.map Prod.fst).Nodup :=
  List.pairwise_map.mpr (hpw.imp (fun hlt => Nat.ne_of_lt hlt))

/-- `victim` returns the LRU-first element of the abstraction,
unconditionally. -/
theorem victim_fst (r : LRUReplacer) : (r.victim).1 = (absLRU r).head? := by
  unfold LRUReplacer.victim absLRU
  cases r.backward with
  | nil => rfl
  | cons hd tl =>
      obtain ⟨t, k⟩ := hd
      rfl

theorem lru_insert_step (r : LRUReplacer) (v : Nat) (h : LRUInv r)
    (hclk2 : r.clock + 1 < 2 ^ 32) :
    LRUInv (r.insert v) ∧ absLRU (r.insert v) = lruSpecInsert (absLRU r) v := by
  obtain ⟨hpw, hclk, hiff, hknd⟩ := h
  have hbnd : (r.backward.map Prod.fst).Nodup := ticks_nodup r hpw
  cases hl : mapLookup r.forward v with
  | none =>
      have hres : r.insert v =
          ⟨mapInsertR r.forward v r.clock,
            r.backward ++ [(r.clock, v)], r.clock + 1⟩ := by
        simp only [LRUReplacer.insert, hl]
        rw [Nat.mod_eq_of_lt hclk2, btInsert_append r.backward r.clock v hclk]
      have hnov : ∀ p ∈ r.backward, p.2 ≠ v := by
        rintro ⟨pt, pv⟩ hp rfl
        have := (hiff pv pt).mpr hp
        rw [hl] at this
        exact Option.noConfusion this
      rw [hres]
      refine ⟨⟨?_, ?_, ?_, ?_⟩, ?_⟩
      · rw [List.pairwise_append]
        refine ⟨hpw, List.pairwise_singleton _ _, ?_⟩
        intro a ha b hb
        rw [List.mem_singleton] at hb
        subst hb
        exact hclk a ha
      · intro p hp
        rcases List.mem_append.mp hp with hp | hp
        · exact Nat.lt_succ_of_lt (hclk p hp)
        · rw [List.mem_singleton] at hp
          subst hp
          exact Nat.lt_succ_self _
      · intro k t
        rw [mapLookup_insertR, List.mem_append, List.mem_singleton,
          Prod.mk.injEq]
        by_cases hk : k = v
        · subst hk
          rw [if_pos rfl]
          constructor
          · intro hh
            exact Or.inr ⟨(Option.some.inj hh).symm, rfl⟩
          · rintro (hh | ⟨rfl, -⟩)
            · exact absurd rfl (hnov (t, k) hh)
            · rfl
        · rw [if_neg hk, hiff]
          constructor
          · exact Or.inl
          · rintro (hh | ⟨-, rfl⟩)
            · exact hh
            · exact absurd rfl hk
      · exact mapInsertR_keys_nodup _ _ _ hknd
      · show (r.backward ++ [(r.clock, v)]).map Prod.snd = _
        rw [List.map_append, lruSpecInsert, List.filter_eq_self.mpr]
        · simp [absLRU]
        · intro a ha
          obtain ⟨p, hp, rfl⟩ := List.mem_map.mp ha
          simpa using hnov p hp
  | some c =>
      have hcv : (c, v) ∈ r.backward := (hiff v c).mp hl
      have hcoh : ∀ p ∈ r.backward, (p.2 = v ↔ p.1 = c) := by
        rintro ⟨pt, pv⟩ hp
        constructor
        · rintro rfl
          have hlp := (hiff pv pt).mpr hp
          rw [hl] at hlp
          exact (Option.some.inj hlp).symm
        · rintro rfl
          exact same_tick_same_val r.backward pt pv v hbnd hp hcv
      have hsub := btRemove_sublist r.backward c
      have hbw_clk : ∀ p ∈ btRemove r.backward c, p.1 < r.clock :=
        fun p hp => hclk p (hsub.subset hp)
      have hres : r.insert v =
          ⟨mapInsertR r.forward v r.clock,
            btRemove r.backward c ++ [(r.clock, v)], r.clock + 1⟩ := by
        simp only [LRUReplacer.insert, hl]
        rw [Nat.mod_eq_of_lt hclk2, btInsert_append _ r.clock v hbw_clk]
      rw [hres]
      refine ⟨⟨?_, ?_, ?_, ?_⟩, ?_⟩
      · rw [List.pairwise_append]
        refine ⟨hpw.sublist hsub, List.pairwise_singleton _ _, ?_⟩
        intro a ha b hb
        rw [List.mem_singleton] at hb
        subst hb
        exact hbw_clk a ha
      · intro p hp
        rcases List.mem_append.mp hp with hp | hp
        · exact Nat.lt_succ_of_lt (hbw_clk p hp)
        · rw [List.mem_singleton] at hp
          subst hp
          exact Nat.lt_succ_self _
      · intro k t
        rw [mapLookup_insertR, List.mem_append, List.mem_singleton,
          Prod.mk.injEq, btRemove_mem _ _ hbnd]
        by_cases hk : k = v
        · subst hk
          rw [if_pos rfl]
          constructor
          · intro hh
            exact Or.inr ⟨(Option.some.inj hh).symm, rfl⟩
          · rintro (⟨hh, hne⟩ | ⟨rfl, -⟩)
            · exact absurd ((hcoh (t, k) hh).mp rfl) hne
            · rfl
        · rw [if_neg hk, hiff]
          constructor
          · intro hh
            refine Or.inl ⟨hh, ?_⟩
            intro htc
            exact hk ((hcoh (t, k) hh).mpr htc)
          · rintro (⟨hh, -⟩ | ⟨-, rfl⟩)
            · exact hh
            · exact absurd rfl hk
      · exact mapInsertR_keys_nodup _ _ _ hknd
      · show (btRemove r.backward c ++ [(r.clock, v)]).map Prod.snd = _
        rw [List.map_append, btRemove_map_snd r.backward c v hbnd hcoh,
          lruSpecInsert]
        simp [absLRU]

theorem lru_victim_step (r : LRUReplacer) (h : LRUInv r) :
    LRUInv (r.victim).2 ∧ absLRU (r.victim).2 = (absLRU r).tail := by
  obtain ⟨hpw, hclk, hiff, hknd⟩ := h
  have hbnd : (r.backward.map Prod.fst).Nodup := ticks_nodup r hpw
  cases hb : r.backward with
  | nil =>
      have hres : (r.victim).2 = r := by
        simp [LRUReplacer.victim, hb]
      rw [hres]
      exact ⟨⟨hpw, hclk, hiff, hknd⟩, by simp [absLRU, hb]⟩
  | cons hd tl =>
      obtain ⟨t, k⟩ := hd
      rw [hb, List.map_cons, List.nodup_cons] at hbnd
      have htl : ∀ p ∈ tl, p ∈ r.backward := by
        intro p hp
        rw [hb]
        exact List.mem_cons_of_mem _ hp
      have hres : (r.victim).2 = ⟨mapRemove r.forward k, tl, r.clock⟩ := by
        simp only [LRUReplacer.victim, hb, List.head?]
        rw [btRemove, if_pos rfl]
      rw [hres]
      have hpwtl : tl.Pairwise (fun p q => p.1 < q.1) := by
        rw [hb] at hpw
        exact hpw.of_cons
      refine ⟨⟨hpwtl, ?_, ?_, ?_⟩, ?_⟩
      · intro p hp
        exact hclk p (htl p hp)
      · intro k' t'
        rw [mapRemove_lookup _ _ _ hknd]
        by_cases hk : k' = k
        · subst hk
          rw [if_pos rfl]
          constructor
          · intro hh
            exact Option.noConfusion hh
          · intro hh
            exfalso
            have hlk := (hiff k' t').mpr (htl _ hh)
            have hlt := (hiff k' t).mpr (by rw [hb]; exact List.mem_cons_self _ _)
            rw [hlk] at hlt
            have ht : t' = t := Option.some.inj hlt
            subst ht
            exact hbnd.1 (List.mem_map_of_mem Prod.fst hh)
        · rw [if_neg hk, hiff, hb, List.mem_cons]
          constructor
          · rintro (hh | hh)
            · rw [Prod.mk.injEq] at hh
              exact absurd hh.2 hk
            · exact hh
          · exact Or.inr
      · exact ((mapRemove_sublist r.forward k).map Prod.fst).nodup hknd
      · simp [absLRU, hb]

theorem lru_erase_step (r : LRUReplacer) (v : Nat) (h : LRUInv r) :
    LRUInv (r.erase v).2 ∧ absLRU (r.erase v).2 = lruSpecErase (absLRU r) v := by
  obtain ⟨hpw, hclk, hiff, hknd⟩ := h
  have hbnd : (r.backward.map Prod.fst).Nodup := ticks_nodup r hpw
  cases hl : mapLookup r.forward v with
  | none =>
      have hres : (r.erase v).2 = r := by
        simp [LRUReplacer.erase, hl]
      have hnov : ∀ p ∈ r.backward, p.2 ≠ v := by
        rintro ⟨pt, pv⟩ hp rfl
        have := (hiff pv pt).mpr hp
        rw [hl] at this
        exact Option.noConfusion this
      rw [hres]
      refine ⟨⟨hpw, hclk, hiff, hknd⟩, ?_⟩
      rw [lruSpecErase, List.filter_eq_self.mpr]
      intro a ha
      obtain ⟨p, hp, rfl⟩ := List.mem_map.mp ha
      simpa using hnov p hp
  | some c =>
      have hcv : (c, v) ∈ r.backward := (hiff v c).mp hl
      have hcoh : ∀ p ∈ r.backward, (p.2 = v ↔ p.1 = c) := by
        rintro ⟨pt, pv⟩ hp
        constructor
        · rintro rfl
          have hlp := (hiff pv pt).mpr hp
          rw [hl] at hlp
          exact (Option.some.inj hlp).symm
        · rintro rfl
          exact same_tick_same_val r.backward pt pv v hbnd hp hcv
      have hsub := btRemove_sublist r.backward c
      have hres : (r.erase v).2
          = ⟨mapRemove r.forward v, btRemove r.backward c, r.clock⟩ := by
        simp [LRUReplacer.erase, hl]
      rw [hres]
      refine ⟨⟨hpw.sublist hsub, ?_, ?_, ?_⟩, ?_⟩
      · intro p hp
        exact hclk p (hsub.subset hp)
      · intro k' t'
        rw [mapRemove_lookup _ _ _ hknd, btRemove_mem _ _ hbnd]
        by_cases hk : k' = v
        · subst hk
          rw [if_pos rfl]
          constructor
          · intro hh
            exact Option.noConfusion hh
          · rintro ⟨hh, hne⟩
            exact (hne ((hcoh (t', k') hh).mp rfl)).elim
        · rw [if_neg hk, hiff]
          constructor
          · intro hh
            refine ⟨hh, ?_⟩
            intro htc
            exact hk ((hcoh (t', k') hh).mpr htc)
          · rintro ⟨hh, -⟩
            exact hh
      · exact ((mapRemove_sublist r.forward v).map Prod.fst).nodup hknd
      · exact btRemove_map_snd r.backward c v hbnd hcoh

theorem insert_clock (r : LRUReplacer) (v : Nat) :
    (r.insert v).clock = (r.clock + 1) % 2 ^ 32 := rfl

theorem victim_clock (r : LRUReplacer) : ((r.victim).2).clock = r.clock := by
  unfold LRUReplacer.victim
  cases r.backward with
  | nil => rfl
  | cons hd tl =>
      obtain ⟨t, k⟩ := hd
      rfl

theorem erase_clock (r : LRUReplacer) (v : Nat) :
    ((r.erase v).2).clock = r.clock := by
  unfold LRUReplacer.erase
  cases mapLookup r.forward v <;> rfl

theorem lruRunFrom_spec (ops : List LRUOp) :
    ∀ (r : LRUReplacer) (l : List Nat), LRUInv r → absLRU r = l →
    r.clock + insCount ops < 2 ^ 32 →
    LRUInv (lruRunFrom ops r) ∧
      absLRU (lruRunFrom ops r) = lruSpecRunFrom ops l := by
  induction ops with
  | nil =>
      intro r l h habs _
      exact ⟨h, habs⟩
  | cons op rest ih =>
      intro r l h habs hbud
      cases op with
      | ins k =>
          simp only [insCount] at hbud
          have hclk2 : r.clock + 1 < 2 ^ 32 := by omega
          obtain ⟨h1, h2⟩ := lru_insert_step r k h hclk2
          refine ih (r.insert k) (lruSpecInsert l k) h1 (by rw [h2, habs]) ?_
          rw [insert_clock, Nat.mod_eq_of_lt hclk2]
          omega
      | vic =>
          simp only [insCount] at hbud
          obtain ⟨h1, h2⟩ := lru_victim_step r h
          refine ih _ l.tail h1 (by rw [h2, habs]) ?_
          rw [victim_clock]
          exact hbud
      | del k =>
          simp only [insCount] at hbud
          obtain ⟨h1, h2⟩ := lru_erase_step r k h
          refine ih _ (lruSpecErase l k) h1 (by rw [h2, habs]) ?_
          rw [erase_clock]
          exact hbud

theorem empty_inv : LRUInv LRUReplacer.empty := by
  refine ⟨?_, ?_, ?_, ?_⟩ <;> simp [LRUReplacer.empty, mapLookup]

/-- Running the replacer over an appended history runs the halves in
sequence. -/
theorem lruRunFrom_append (a b : List LRUOp) (r : LRUReplacer) :
    lruRunFrom (a ++ b) r = lruRunFrom b (lruRunFrom a r) := by
  induction a generalizing r with
  | nil => rfl
  | cons op t ih =>
      cases op <;> simp only [List.cons_append, lruRunFrom] <;> exact ih _

/-- Running the LRU-list model over an appended history runs the halves in
sequence. -/
theorem lruSpecRunFrom_append (a b : List LRUOp) (l : List Nat) :
    lruSpecRunFrom (a ++ b) l = lruSpecRunFrom b (lruSpecRunFrom a l) := by
  induction a generalizing l with
  | nil => rfl
  | cons op t ih =>
      cases op <;> simp only [List.cons_append, lruSpecRunFrom] <;> exact ih _

theorem lruRunFrom_nil (r : LRUReplacer) : lruRunFrom [] r = r := rfl

theorem lruRunFrom_cons_ins (k : Nat) (t : List LRUOp) (r : LRUReplacer) :
    lruRunFrom (LRUOp.ins k :: t) r = lruRunFrom t (r.insert k) := rfl

theorem lruSpecRunFrom_cons_ins (k : Nat) (t : List LRUOp) (l : List Nat) :
    lruSpecRunFrom (LRUOp.ins k :: t) l
      = lruSpecRunFrom t (lruSpecInsert l k) := rfl

/-- Inserting the sole tracked key refreshes its tick to the current clock
and advances the clock modulo `2 ^ 32`. -/
theorem lru_ins_one (c clk : Nat) :
    LRUReplacer.insert ⟨[(1, c)], [(c, 1)], clk⟩ 1
      = ⟨[(1, clk)], [(clk, 1)], (clk + 1) % 2 ^ 32⟩ := by
  simp [LRUReplacer.insert, mapLookup, btRemove, btInsert, mapInsertR]

/-- Repeatedly inserting the one tracked key keeps a single entry whose
tick chases the clock — which advances modulo `2 ^ 32`. -/
theorem lruRun_repeat_ins (n : Nat) :
    ∀ (c clk : Nat), clk < 2 ^ 32 →
    lruRunFrom (List.replicate (n + 1) (LRUOp.ins 1)) ⟨[(1, c)], [(c, 1)], clk⟩
      = ⟨[(1, (clk + n) % 2 ^ 32)], [((clk + n) % 2 ^ 32, 1)],
          (clk + n + 1) % 2 ^ 32⟩ := by
  induction n with
  | zero =>
      intro c clk hclk
      rw [List.replicate_succ, List.replicate_zero, lruRunFrom_cons_ins,
        lruRunFrom_nil, lru_ins_one]
      simp only [Nat.add_zero]
      rw [Nat.mod_eq_of_lt hclk]
  | succ n ih =>
      intro c clk hclk
      rw [List.replicate_succ, lruRunFrom_cons_ins, lru_ins_one,
        ih clk ((clk + 1) % 2 ^ 32) (Nat.mod_lt _ (by norm_num))]
      have e1 : ((clk + 1) % 2 ^ 32 + n) % 2 ^ 32
          = (clk + (n + 1)) % 2 ^ 32 := by
        omega
      have e2 : ((clk + 1) % 2 ^ 32 + n + 1) % 2 ^ 32
          = (clk + (n + 1) + 1) % 2 ^ 32 := by
        omega
      rw [e1, e2]

/-- C9 counterexample.  The tick clock is a `u32`: after `2 ^ 32` inserts
of key 1 the clock has wrapped back to 0, so the subsequent insert of key 2
stores tick 0, which sorts *below* key 1's tick `2 ^ 32 - 1` in `backward`.
`victim()` then returns key 2 — the most recently inserted key — while the
strict-LRU order demands key 1 (the LRU-list model's head is 1): the wrap
breaks "victim returns the tracked key whose most recent insert is
oldest". -/
theorem claim9_counterexample_u32_clock_wrap_breaks_lru :
    ((lruRunFrom (List.replicate (2 ^ 32) (LRUOp.ins 1) ++ [LRUOp.ins 2])
        LRUReplacer.empty).victim).1 = some 2 ∧
    (lruSpecRunFrom (List.replicate (2 ^ 32) (LRUOp.ins 1) ++ [LRUOp.ins 2])
        []).head? = some 1 ∧
    some (2 : Nat) ≠ some 1 := by
  have hins : LRUReplacer.empty.insert 1 = ⟨[(1, 0)], [(0, 1)], 1⟩ := by
    decide
  have hsplit : List.replicate (2 ^ 32) (LRUOp.ins 1)
      = LRUOp.ins 1 :: List.replicate (2 ^ 32 - 2 + 1) (LRUOp.ins 1) := by
    have h : (2 : Nat) ^ 32 = (2 ^ 32 - 2 + 1) + 1 := by norm_num
    nth_rewrite 1 [h]
    rw [List.replicate_succ]
  have hrep : lruRunFrom (List.replicate (2 ^ 32) (LRUOp.ins 1))
      LRUReplacer.empty
      = ⟨[(1, 2 ^ 32 - 1)], [(2 ^ 32 - 1, 1)], 0⟩ := by
    rw [hsplit, lruRunFrom_cons_ins, hins,
      lruRun_repeat_ins (2 ^ 32 - 2) 0 1 (by norm_num)]
    have e1 : (1 + (2 ^ 32 - 2)) % 2 ^ 32 = 2 ^ 32 - 1 := by decide
    have e2 : (1 + (2 ^ 32 - 2) + 1) % 2 ^ 32 = 0 := by decide
    rw [e1, e2]
  have hins2 : LRUReplacer.insert ⟨[(1, 2 ^ 32 - 1)], [(2 ^ 32 - 1, 1)], 0⟩ 2
      = ⟨[(1, 2 ^ 32 - 1), (2, 0)], [(0, 2), (2 ^ 32 - 1, 1)], 1⟩ := by
    decide
  have hcode : lruRunFrom (List.replicate (2 ^ 32) (LRUOp.ins 1)
        ++ [LRUOp.ins 2]) LRUReplacer.empty
      = ⟨[(1, 2 ^ 32 - 1), (2, 0)], [(0, 2), (2 ^ 32 - 1, 1)], 1⟩ := by
    rw [lruRunFrom_append, hrep, lruRunFrom_cons_ins, hins2, lruRunFrom_nil]
  have hspec1 : ∀ n : Nat,
      lruSpecRunFrom (List.replicate n (LRUOp.ins 1)) [1] = [1] := by
    intro n
    induction n with
    | zero => rfl
    | succ n ih =>
        rw [List.replicate_succ, lruSpecRunFrom_cons_ins]
        have h11 : lruSpecInsert [1] 1 = [1] := by decide
        rw [h11]
        exact ih
  have hspec : lruSpecRunFrom (List.replicate (2 ^ 32) (LRUOp.ins 1)
        ++ [LRUOp.ins 2]) [] = [1, 2] := by
    rw [lruSpecRunFrom_append, hsplit, lruSpecRunFrom_cons_ins 1 _ []]
    have h01 : lruSpecInsert [] 1 = [1] := rfl
    rw [h01, hspec1]
    decide
  refine ⟨?_, ?_, by decide⟩
  · rw [hcode]
    decide
  · rw [hspec]
    rfl

/-- C9 amended.  Restricted to histories with fewer than `2 ^ 32` inserts —
the tick clock is a `u32`, and the counterexample shows strict LRU breaking
at the wrap — the replacer implements strict LRU with MRU refresh.  Running
any such sequence of `insert` / `victim` / `erase` operations from the
empty replacer, the keys tracked (read off `backward` in tick order, LRU
first) are exactly those of the textbook LRU-list model, in which an insert
moves the key to the MRU end; `victim` removes and returns the model's head
— the tracked key whose most recent insert is oldest — and returns `none`
exactly when the model list is empty.  In particular, for distinct keys
`x ≠ y`, after `insert x; insert y; insert x` the victim is `y`. -/
theorem claim9_amended_strict_lru_below_u32_wrap :
    (∀ ops : List LRUOp, insCount ops < 2 ^ 32 →
      absLRU (lruRunFrom ops LRUReplacer.empty) = lruSpecRunFrom ops [] ∧
      ((lruRunFrom ops LRUReplacer.empty).victim).1
        = (lruSpecRunFrom ops []).head?) ∧
    (∀ x y : Nat, x ≠ y →
      ((((LRUReplacer.empty.insert x).insert y).insert x).victim).1 = some y) := by
  have hrun : ∀ ops : List LRUOp, insCount ops < 2 ^ 32 →
      LRUInv (lruRunFrom ops LRUReplacer.empty) ∧
        absLRU (lruRunFrom ops LRUReplacer.empty) = lruSpecRunFrom ops [] :=
    fun ops hops => lruRunFrom_spec ops LRUReplacer.empty [] empty_inv rfl
      (by simpa [LRUReplacer.empty] using hops)
  constructor
  · intro ops hops
    obtain ⟨hinv, habs⟩ := hrun ops hops
    exact ⟨habs, by rw [victim_fst, habs]⟩
  · intro x y hxy
    have h := (hrun [LRUOp.ins x, LRUOp.ins y, LRUOp.ins x]
      (by norm_num [insCount])).2
    have hv : ((((LRUReplacer.empty.insert x).insert y).insert x).victim).1
        = (lruSpecRunFrom [LRUOp.ins x, LRUOp.ins y, LRUOp.ins x] []).head? := by
      rw [victim_fst]
      exact congrArg List.head? h
    rw [hv]
    simp [lruSpecRunFrom, lruSpecInsert, hxy, Ne.symm hxy]

/-- Witness for the C9 amended theorem: the three-insert history
`insert 1; insert 2; insert 1` (3 inserts, well below `2 ^ 32`). -/
theorem claim9_amended_witness :
    insCount [LRUOp.ins 1, LRUOp.ins 2, LRUOp.ins 1] < 2 ^ 32 ∧
    (absLRU (lruRunFrom [LRUOp.ins 1, LRUOp.ins 2, LRUOp.ins 1]
        LRUReplacer.empty)
      = lruSpecRunFrom [LRUOp.ins 1, LRUOp.ins 2, LRUOp.ins 1] [] ∧
     ((lruRunFrom [LRUOp.ins 1, LRUOp.ins 2, LRUOp.ins 1]
        LRUReplacer.empty).victim).1
      = (lruSpecRunFrom [LRUOp.ins 1, LRUOp.ins 2, LRUOp.ins 1] []).head?) ∧
    ((1 : Nat) ≠ 2 ∧
     ((((LRUReplacer.empty.insert 1).insert 2).insert 1).victim).1 = some 2) :=
  ⟨by decide,
    claim9_amended_strict_lru_below_u32_wrap.1
      [LRUOp.ins 1, LRUOp.ins 2, LRUOp.ins 1] (by decide),
    by decide,
    claim9_amended_strict_lru_below_u32_wrap.2 1 2 (by decide)⟩

/-- C1.  On a pool of size 1: `new_page` issues page 1 into frame 0,
`unpin_page(1, false)` moves frame 0 into the replacer, and `delete_page(1)`
succeeds — yet afterwards frame 0 sits on the free list *and* is still
tracked by the replacer, because `delete_page` never erases the freed frame
from the replacer.  This refutes the claimed mutual exclusion of
{free list, replacer, pinned-page-table} for reachable states, at exactly
the `delete_page`-on-a-resident-unpinned-page scenario the claim singles
out. -/
theorem claim1_delete_leaves_frame_on_free_list_and_in_replacer :
    (newPage env0 (BufferPool.new 1)).2 = .ok 0 ∧
    (unpinPage 1 false ((newPage env0 (BufferPool.new 1)).1)).2 = .ok () ∧
    (deletePage 1 ((unpinPage 1 false ((newPage env0 (BufferPool.new 1)).1)).1)).2 = .ok () ∧
    ((deletePage 1 ((unpinPage 1 false ((newPage env0 (BufferPool.new 1)).1)).1)).1).free_list = [0] ∧
    absLRU ((deletePage 1 ((unpinPage 1 false ((newPage env0 (BufferPool.new 1)).1)).1)).1).replacer = [0] := by
  decide

/-- C3 counterexample.  A database file of exactly one page (4096 bytes)
and `read_page(1, dst)`: the byte offset `1 × PAGE_SIZE` equals the file
length, and the claim says the file is extended and the read succeeds
filling `dst` with zeros — but `read_page` fails with `UnexpectedEof` and
leaves `dst` (here all-sevens) untouched. -/
theorem claim3_counterexample_read_at_file_end_fails :
    (DiskManager.read_page env0 ⟨List.replicate 4096 0, ⟨[], 2⟩⟩ 1
        (List.replicate PAGE_SIZE 7)).2 = some eofErr ∧
    (DiskManager.read_page env0 ⟨List.replicate 4096 0, ⟨[], 2⟩⟩ 1
        (List.replicate PAGE_SIZE 7)).1 = List.replicate PAGE_SIZE 7 ∧
    List.replicate PAGE_SIZE 7 ≠ List.replicate PAGE_SIZE 0 := by
  have hr : DiskManager.read_page env0 ⟨List.replicate 4096 0, ⟨[], 2⟩⟩ 1
      (List.replicate PAGE_SIZE 7)
      = (List.replicate PAGE_SIZE 7, some eofErr) := by
    apply readInl_eof
    rw [List.length_replicate]
    decide
  refine ⟨by rw [hr], by rw [hr], ?_⟩
  intro h
  have h7 : (7 : Nat) ∈ List.replicate PAGE_SIZE 7 :=
    List.mem_replicate.mpr ⟨by decide, rfl⟩
  have : (7 : Nat) = 0 := List.eq_of_mem_replicate (h ▸ h7)
  exact absurd this (by decide)

/-- C3 amended.  When `read_page(id, dst)` is called with the byte offset
`id × PAGE_SIZE` equal to the current file length, the file is *not*
extended: the first `File::read` of the `read_inl` loop returns 0 bytes, so
the call fails with `UnexpectedEof`, `dst` is left untouched, and the
checksum is never consulted (`read_page` never modifies the file, which the
model reflects by returning only the buffer and the error). -/
theorem claim3_amended_read_page_at_file_end_unexpected_eof
    (env : Env) (dm : DiskManager) (id : Int) (dst : List Nat)
    (h : id.toNat * PAGE_SIZE = dm.file.length) :
    DiskManager.read_page env dm id dst = (dst, some eofErr) := by
  unfold DiskManager.read_page
  exact readInl_eof env dm.file dst _ PAGE_SIZE (Nat.le_of_eq h.symm)

/-- Witness for the C3 amended theorem at a one-page file. -/
theorem claim3_amended_witness :
    ((1 : Int).toNat * PAGE_SIZE
        = (List.replicate 4096 (0 : Nat)).length) ∧
    DiskManager.read_page env0 ⟨List.replicate 4096 0, ⟨[], 2⟩⟩ 1 [7]
      = ([7], some eofErr) := by
  have hlen : (1 : Int).toNat * PAGE_SIZE = (List.replicate 4096 (0 : Nat)).length := by
    rw [List.length_replicate]
    decide
  exact ⟨hlen,
    claim3_amended_read_page_at_file_end_unexpected_eof env0
      ⟨List.replicate 4096 0, ⟨[], 2⟩⟩ 1 [7] hlen⟩

/-- C4.  In `config.rs` the source sets `HEADER_PAGE_ID = 0`, not 1, and
`validate 0` therefore passes, so `fetch_page(0)` is not rejected as
`InvalidInput`: on a fresh pool it proceeds to the disk and fails with
`UnexpectedEof` instead.  (The repository's own tests assume
`HEADER_PAGE_ID = 1`: the first allocated page id is 1 and is asserted
equal to `HEADER_PAGE_ID`, and `delete_page(0)` is asserted to fail.) -/
theorem claim4_header_page_id_is_zero_and_fetch_zero_not_invalid_input :
    HEADER_PAGE_ID = 0 ∧ validate 0 = none ∧
    (fetchPage env0 0 (BufferPool.new 1)).2 = .error eofErr ∧
    eofErr.kind ≠ ErrKind.invalidInput := by
  refine ⟨rfl, rfl, ?_, by decide⟩
  decide

/-- C5 counterexample.  From a freshly created database the very first
`allocate_page` returns 1, not 0: one allocation issues the id list `[1]`,
so the issued set is `{1}`, not `{0}` as the claim requires for `n = 1`. -/
theorem claim5_counterexample_first_allocated_id_is_one :
    (allocRun 1 DiskManager.fresh).1 = [1] ∧
    (0 : Int) ∉ (allocRun 1 DiskManager.fresh).1 := by
  decide

/-- From the allocator state with an empty free set and a positive counter
whose `n` increments all stay inside the `i32` range, `n` allocations issue
`m, m+1, …, m+n-1` in order (no increment overflows, so each `i32Wrap` is
the identity; only the final increment may wrap, and it does not affect any
returned id). -/
theorem allocRun_empty_free (n : Nat) (file : List Nat) (m : Int)
    (hm : 0 < m) (hmn : m + n ≤ 2 ^ 31) :
    (allocRun n ⟨file, ⟨[], m⟩⟩).1
      = (List.range n).map (fun k : Nat => m + (k : Int)) := by
  induction n generalizing m with
  | zero => rfl
  | succ n ih =>
      rcases Nat.eq_zero_or_pos n with rfl | hn
      · simp [allocRun, DiskManager.allocate_page, Metadata.find_free,
          List.head?, List.range_succ]
      · have hw : i32Wrap (m + 1) = m + 1 := by
          unfold i32Wrap
          rw [Int.emod_eq_of_lt (by omega) (by omega)]
          omega
        simp only [allocRun, DiskManager.allocate_page, Metadata.find_free,
          List.head?, hw]
        rw [ih (m + 1) (by omega) (by omega), List.range_succ_eq_map]
        simp only [List.map_cons, List.map_map, Nat.cast_zero, add_zero]
        congr 1
        apply List.map_congr_left
        intro k _
        simp only [Function.comp]
        push_cast
        ring

/-- C5 amended.  From a freshly created database (no allocation records,
`next_free = 1`), as long as `n` stays below `2 ^ 31` (the `PageId` counter
is a 32-bit signed integer, so a debug build aborts and a release build
wraps at the 2^31-th increment), `n` consecutive `allocate_page` calls
deterministically issue the ids `1, 2, …, n` in order — the issued set is
`{1, …, n}`, not `{0, …, n−1}` (page 0 is reserved). -/
theorem claim5_amended_alloc_ids_are_one_to_n (n : Nat) (hn : (n : Int) < 2 ^ 31) :
    (allocRun n DiskManager.fresh).1
        = (List.range n).map (fun k : Nat => 1 + (k : Int)) ∧
    ∀ i : Int, i ∈ (allocRun n DiskManager.fresh).1 ↔ 1 ≤ i ∧ i ≤ n := by
  have h : (allocRun n DiskManager.fresh).1
      = (List.range n).map (fun k : Nat => 1 + (k : Int)) :=
    allocRun_empty_free n [] 1 (by omega) (by omega)
  refine ⟨h, fun i => ?_⟩
  rw [h]
  simp only [List.mem_map, List.mem_range]
  constructor
  · rintro ⟨k, hk, hi⟩
    omega
  · rintro ⟨h1, h2⟩
    refine ⟨(i - 1).toNat, by omega, by omega⟩

/-- Witness for the C5 amended theorem at `n = 3`. -/
theorem claim5_amended_witness :
    (((3 : Nat) : Int) < 2 ^ 31) ∧
    ((allocRun 3 DiskManager.fresh).1
        = (List.range 3).map (fun k : Nat => 1 + (k : Int)) ∧
      ∀ i : Int, i ∈ (allocRun 3 DiskManager.fresh).1
        ↔ 1 ≤ i ∧ i ≤ ((3 : Nat) : Int)) :=
  ⟨by decide, claim5_amended_alloc_ids_are_one_to_n 3 (by decide)⟩

/-- C6.  `deallocate_page` is *not* idempotent from every reachable state:
after `allocate_page` issues id 1 (state: free set `∅`, `next_free = 2`),
one `deallocate_page(1)` collapses to free set `∅`, `next_free = 1`, but a
second `deallocate_page(1)` re-adds 1 to the free set while `next_free`
stays 1 — a different state.  The subsequent allocations diverge: after a
single call they issue 1 then 2; after the duplicate call they issue 1 and
then 1 *again*, handing out the same page id twice. -/
theorem claim6_double_deallocate_diverges :
    ((DiskManager.fresh.allocate_page).1 = 1) ∧
    (((DiskManager.fresh.allocate_page).2.deallocate_page 1).metadata
        = ⟨[], 1⟩) ∧
    ((((DiskManager.fresh.allocate_page).2.deallocate_page 1).deallocate_page 1).metadata
        = ⟨[1], 1⟩) ∧
    ((((DiskManager.fresh.allocate_page).2.deallocate_page 1).deallocate_page 1)
        ≠ ((DiskManager.fresh.allocate_page).2.deallocate_page 1)) ∧
    (allocRun 2 (((DiskManager.fresh.allocate_page).2.deallocate_page 1).deallocate_page 1)).1
        = [1, 1] ∧
    (allocRun 2 ((DiskManager.fresh.allocate_page).2.deallocate_page 1)).1
        = [1, 2] := by
  decide

/-- C8 amended.  A failing `unpin_page` leaves the pool unchanged in the
`NotFound` case, but in the `InvalidData` case (pin count already ≤ 0) the
frame's dirty flag has already been overwritten with the call's `is_dirty`
argument — everything else (page table, free list, replacer, disk manager,
pin count, page id, data) is untouched. -/
theorem claim8_amended_unpin_error_state (st : BufferPool) (id : Int) (d : Bool) :
    (ptLookup st.page_table id = none →
      unpinPage id d st = (st, .error (notFound "Page not found in table"))) ∧
    (∀ idx, ptLookup st.page_table id = some idx →
      (st.pages.getD idx PageT.new).pin_count ≤ 0 →
      unpinPage id d st =
        ({ st with pages :=
            st.pages.set idx ((st.pages.getD idx PageT.new).set_is_dirty d) },
         .error (invalidData "Pin count <= 0, cannot be unpinned"))) := by
  constructor
  · intro h
    simp [unpinPage, h]
  · intro idx h hpin
    rw [List.getD_eq_getElem?_getD] at hpin
    simp [unpinPage, h, PageT.unpin, PageT.set_is_dirty, hpin]

/-- Witness for the C8 amended theorem: a pool whose page table maps id 1
to frame 0 with pin count 0; `unpin_page(1, false)` fails with
`InvalidData` yet writes the dirty flag. -/
theorem claim8_amended_witness :
    (ptLookup ({ BufferPool.new 1 with page_table := [(1, 0)] } :
        BufferPool).page_table 1 = some 0) ∧
    ((({ BufferPool.new 1 with page_table := [(1, 0)] } :
        BufferPool).pages.getD 0 PageT.new).pin_count ≤ 0) ∧
    unpinPage 1 false ({ BufferPool.new 1 with page_table := [(1, 0)] } :
        BufferPool) =
      ({ ({ BufferPool.new 1 with page_table := [(1, 0)] } : BufferPool) with
          pages := ({ BufferPool.new 1 with page_table := [(1, 0)] } :
            BufferPool).pages.set 0
            ((({ BufferPool.new 1 with page_table := [(1, 0)] } :
              BufferPool).pages.getD 0 PageT.new).set_is_dirty false) },
       .error (invalidData "Pin count <= 0, cannot be unpinned")) :=
  ⟨by decide, by decide,
    (claim8_amended_unpin_error_state
      ({ BufferPool.new 1 with page_table := [(1, 0)] }) 1 false).2 0
      (by decide) (by decide)⟩

/-- C8 counterexample.  Pool of size 1: `new_page` (page 1, pin 1), then
`unpin_page(1, true)` (pin 0, dirty).  A second `unpin_page(1, false)`
fails with `InvalidData` — but it is not state-preserving: the frame's
dirty flag, `true` before the failing call, has been overwritten to
`false`, because the source assigns `set_is_dirty` before checking the pin
count. -/
theorem claim8_counterexample_failing_unpin_overwrites_dirty :
    (unpinPage 1 false ((unpinPage 1 true ((newPage env0 (BufferPool.new 1)).1)).1)).2
        = .error (invalidData "Pin count <= 0, cannot be unpinned") ∧
    (((unpinPage 1 true ((newPage env0 (BufferPool.new 1)).1)).1).pages.getD 0 PageT.new).is_dirty
        = true ∧
    (((unpinPage 1 false ((unpinPage 1 true ((newPage env0 (BufferPool.new 1)).1)).1)).1).pages.getD
        0 PageT.new).is_dirty = false := by
  decide

end DbRust
